import Mathlib

/-!
Verification of the multi-search quota/credit ledger, strategy execution and
lifecycle supervisor against their specification.

The credit ledger (`CreditManager`) is translated from
`src/core/credits/CreditStateProvider.ts`.  The persisted credit state is a
JSON object keyed by engine id; it is modelled as an association list in key
insertion order.  The configured engines are stored in a JavaScript `Map`
built from the config list, modelled as an association list built with
`Map.set` semantics (later duplicate ids overwrite in place).  Timestamps are
ISO 8601 strings; the monthly-reset comparison uses their `YYYY-MM` prefix,
exactly as `slice(0, 7)` does in the source.  Methods that `throw` in the
source return `Except String`.
-/

namespace MultiSearch

/-- Per-engine configuration (`EngineConfig`): the fields the credit ledger
reads.  `monthlyQuota` and `creditCostPerSearch` are JavaScript numbers used
as integers. -/
structure EngineConfig where
  id : String
  monthlyQuota : Int
  creditCostPerSearch : Int
deriving Repr, DecidableEq

/-- One entry of the persisted `CreditState`: credits used this billing period
and the ISO 8601 timestamp of the last reset. -/
structure UsageRecord where
  used : Int
  lastReset : String
deriving Repr, DecidableEq

/-- The `CreditState` maps engine ids to usage records; a JSON object modelled as
an association list in key insertion order. -/
abbrev CreditState := List (String × UsageRecord)

/-- Property read `state[engineId]`: first entry with the given key. -/
def lookupState : CreditState → String → Option UsageRecord
  | [], _ => none
  | (k, v) :: rest, engineId =>
    if k = engineId then some v else lookupState rest engineId

/-- In-place mutation of the record stored under a key (`record.used += ...`
mutates the object held in the state). -/
def updateState : CreditState → String → UsageRecord → CreditState
  | [], _, _ => []
  | (k, v) :: rest, engineId, r =>
    if k = engineId then (k, r) :: updateState rest engineId r
    else (k, v) :: updateState rest engineId r

/-- The `slice(0, 7)` prefix of an ISO timestamp: its `YYYY-MM` calendar-month prefix. -/
def monthOf (s : String) : String := s.take 7

/-- One `Map.set` on the engine map: an existing key is overwritten in place,
a new key is appended. -/
def mapInsert (l : List (String × EngineConfig)) (e : EngineConfig) :
    List (String × EngineConfig) :=
  if l.any (fun p => p.1 = e.id) then
    l.map (fun p => if p.1 = e.id then (e.id, e) else p)
  else l ++ [(e.id, e)]

/-- Builds `new Map(engines.map((e) => [e.id, e]))`. -/
def mkEngineMap (es : List EngineConfig) : List (String × EngineConfig) :=
  es.foldl mapInsert []

/-- The credit ledger (`CreditManager`): the configured engine map and the
in-memory credit state. -/
structure CreditManager where
  engines : List (String × EngineConfig)
  state : CreditState
deriving Repr, DecidableEq

/-- The `CreditManager` constructor: builds the engine map; the state starts
empty until `initialize` loads it. -/
def CreditManager.make (es : List EngineConfig) : CreditManager :=
  { engines := mkEngineMap es, state := [] }

/-- Reads `this.engines.get(engineId)`. -/
def CreditManager.getEngine (m : CreditManager) (engineId : String) :
    Option EngineConfig :=
  (m.engines.find? (fun p => p.1 = engineId)).map (fun p => p.2)

/-- One iteration of the `resetIfNeeded` loop body for a configured engine:
create a fresh zero record when absent, reset it when its `lastReset` month
differs from the current month, otherwise leave it alone. -/
def resetStep (now : String) (st : CreditState) (p : String × EngineConfig) :
    CreditState :=
  match lookupState st p.1 with
  | none => st ++ [(p.1, ⟨0, now⟩)]
  | some record =>
    if monthOf record.lastReset ≠ monthOf now then
      updateState st p.1 ⟨0, now⟩
    else st

/-- Method `resetIfNeeded` without its final `saveState`: the loop over the engine
map applied to the in-memory state. -/
def resetIfNeeded (engines : List (String × EngineConfig)) (st : CreditState)
    (now : String) : CreditState :=
  engines.foldl (resetStep now) st

/-- Method `initialize()`: loads the persisted state, applies `resetIfNeeded`, and
writes the state back.  Returns the manager and the persisted snapshot (the
`saveState` argument, which equals the new in-memory state). -/
def CreditManager.initializeLedger (m : CreditManager) (persisted : CreditState)
    (now : String) : CreditManager × CreditState :=
  let st := resetIfNeeded m.engines persisted now
  ({ m with state := st }, st)

/-- Method `charge(engineId)`: throws on an unknown engine or a missing record;
returns `false` and leaves the state untouched when the charge would exceed
the quota; otherwise increments `used` by `creditCostPerSearch`. -/
def CreditManager.charge (m : CreditManager) (engineId : String) :
    Except String (Bool × CreditManager) :=
  match m.getEngine engineId with
  | none => .error ("Unknown engine: " ++ engineId)
  | some config =>
    match lookupState m.state engineId with
    | none => .error ("No credit record for engine: " ++ engineId)
    | some record =>
      if record.used + config.creditCostPerSearch > config.monthlyQuota then
        .ok (false, m)
      else
        .ok (true, { m with
          state := updateState m.state engineId
            ⟨record.used + config.creditCostPerSearch, record.lastReset⟩ })

/-- Method `chargeAndSave(engineId)`: charges and, only when the charge succeeded,
writes the in-memory state through the persistence collaborator.  The store
contents are threaded explicitly; the result carries the returned boolean,
the manager and the store after the call. -/
def CreditManager.chargeAndSave (m : CreditManager) (store : CreditState)
    (engineId : String) : Except String (Bool × CreditManager × CreditState) :=
  match m.charge engineId with
  | .error e => .error e
  | .ok (result, m1) =>
    if result then .ok (true, m1, m1.state) else .ok (false, m1, store)

/-- Method `hasSufficientCredits(engineId)`: `false` for an unconfigured id, `true`
when no record exists yet, otherwise `used + costPerSearch <= quota`. -/
def CreditManager.hasSufficientCredits (m : CreditManager) (engineId : String) :
    Bool :=
  match m.getEngine engineId with
  | none => false
  | some config =>
    match lookupState m.state engineId with
    | none => true
    | some record =>
      decide (record.used + config.creditCostPerSearch ≤ config.monthlyQuota)

/-- Derived, read-only `CreditSnapshot` view. -/
structure CreditSnapshot where
  engineId : String
  quota : Int
  used : Int
  remaining : Int
  isExhausted : Bool
deriving Repr, DecidableEq

/-- Method `getSnapshot(engineId)`: throws on an unknown engine; a missing record is
viewed as zero usage (`now` stands for `new Date().toISOString()`). -/
def CreditManager.getSnapshot (m : CreditManager) (engineId : String)
    (now : String) : Except String CreditSnapshot :=
  match m.getEngine engineId with
  | none => .error ("Unknown engine: " ++ engineId)
  | some config =>
    let record := (lookupState m.state engineId).getD ⟨0, now⟩
    let remaining := max 0 (config.monthlyQuota - record.used)
    .ok ⟨engineId, config.monthlyQuota, record.used, remaining,
      decide (remaining < config.creditCostPerSearch)⟩

/-- The spec's wording of `hasSufficientCredits`, for comparison with the
source translation: the spec demands an `UnknownBackend` failure for an id
absent from the configuration, where the source returns `false`. -/
def hasSufficientCreditsSpec (m : CreditManager) (engineId : String) :
    Except String Bool :=
  match m.getEngine engineId with
  | none => .error "UnknownBackend"
  | some config =>
    match lookupState m.state engineId with
    | none => .ok true
    | some record =>
      .ok (decide (record.used + config.creditCostPerSearch ≤ config.monthlyQuota))

/-- A state has a record with the given calendar month under a key. -/
def monthOkAt (cm : String) (st : CreditState) (engineId : String) : Prop :=
  ∃ r, lookupState st engineId = some r ∧ monthOf r.lastReset = cm

/-- Performing `n` sequential charges against one engine, collecting the
returned booleans. -/
def chargeSeq : CreditManager → String → Nat → Except String (List Bool × CreditManager)
  | m, _, 0 => .ok ([], m)
  | m, engineId, n + 1 =>
    match m.charge engineId with
    | .error e => .error e
    | .ok (b, m1) =>
      match chargeSeq m1 engineId n with
      | .error e => .error e
      | .ok (bs, m2) => .ok (b :: bs, m2)

/-- The `EngineAttempt` record: the recorded outcome of one back-end within a strategy
execution (`src/core/strategy` types). -/
structure EngineAttempt where
  engineId : String
  success : Bool
  reason : Option String
deriving Repr, DecidableEq

/-- The `StrategyResult` record: merged result items plus the per-engine attempts log,
parametrised by the normalized result-item type. -/
structure StrategyResult (α : Type) where
  results : List α
  attempts : List EngineAttempt
deriving Repr, DecidableEq

/-- Modelled from the spec: the shared `ISearchStrategy.execute` contract and
the `AllProvidersStrategy` fan-out policy, whose implementation files
(`AllProvidersStrategy.ts`) are not among the repository sources.  Back-ends
are processed in input order; a back-end failing the `hasSufficientCredits`
pre-check is recorded as `success:false, reason:"low_credit"` and skipped
with no call and no charge; otherwise it is called (`search` returns the
post-retry final outcome: items on success, the failure reason otherwise,
an empty item list counting as a `no_results` failure), a successful call is
charged and persisted via `chargeAndSave` and its items merged in input
order.  Returns the attempts log, merged results, the list of back-ends
actually called, and the final manager and persisted store. -/
def runAll {α : Type} (search : String → Except String (List α)) :
    CreditManager → CreditState → List String →
    Except String (List EngineAttempt × List α × List String × CreditManager × CreditState)
  | m, store, [] => .ok ([], [], [], m, store)
  | m, store, engineId :: rest =>
    if m.hasSufficientCredits engineId then
      match search engineId with
      | .error reason =>
        match runAll search m store rest with
        | .error e => .error e
        | .ok (atts, res, calls, m1, store1) =>
          .ok (⟨engineId, false, some reason⟩ :: atts, res, engineId :: calls, m1, store1)
      | .ok items =>
        if items.isEmpty then
          match runAll search m store rest with
          | .error e => .error e
          | .ok (atts, res, calls, m1, store1) =>
            .ok (⟨engineId, false, some "no_results"⟩ :: atts, res,
              engineId :: calls, m1, store1)
        else
          match m.chargeAndSave store engineId with
          | .error e => .error e
          | .ok (_charged, m1, store1) =>
            match runAll search m1 store1 rest with
            | .error e => .error e
            | .ok (atts, res, calls, m2, store2) =>
              .ok (⟨engineId, true, none⟩ :: atts, items ++ res,
                engineId :: calls, m2, store2)
    else
      match runAll search m store rest with
      | .error e => .error e
      | .ok (atts, res, calls, m1, store1) =>
        .ok (⟨engineId, false, some "low_credit"⟩ :: atts, res, calls, m1, store1)

/-- Modelled from the spec: the `FirstSuccessStrategy` policy, whose
implementation file (`FirstSuccessStrategy.ts`) is not among the repository
sources.  Back-ends are tried in order until one attempt succeeds with a
non-empty result, which is charged and returned alone; failed or skipped
back-ends are recorded in the attempts log and the next one is tried; when
every back-end fails the strategy returns zero items with the full attempts
log. -/
def runFirstSuccess {α : Type} (search : String → Except String (List α)) :
    CreditManager → CreditState → List String →
    Except String (StrategyResult α × CreditManager × CreditState)
  | m, store, [] => .ok (⟨[], []⟩, m, store)
  | m, store, engineId :: rest =>
    if m.hasSufficientCredits engineId then
      match search engineId with
      | .error reason =>
        match runFirstSuccess search m store rest with
        | .error e => .error e
        | .ok (r, m1, store1) =>
          .ok (⟨r.results, ⟨engineId, false, some reason⟩ :: r.attempts⟩, m1, store1)
      | .ok items =>
        if items.isEmpty then
          match runFirstSuccess search m store rest with
          | .error e => .error e
          | .ok (r, m1, store1) =>
            .ok (⟨r.results, ⟨engineId, false, some "no_results"⟩ :: r.attempts⟩,
              m1, store1)
        else
          match m.chargeAndSave store engineId with
          | .error e => .error e
          | .ok (_charged, m1, store1) =>
            .ok (⟨items, [⟨engineId, true, none⟩]⟩, m1, store1)
    else
      match runFirstSuccess search m store rest with
      | .error e => .error e
      | .ok (r, m1, store1) =>
        .ok (⟨r.results, ⟨engineId, false, some "low_credit"⟩ :: r.attempts⟩, m1, store1)

/-- The `LifecycleState` of one supervised process. -/
inductive LifecycleState
  | uninitialized
  | starting
  | healthy
  | unhealthy
  | shuttingDown
  | stopped
  | failed
deriving Repr, DecidableEq

/-- Modelled from the spec: the observable bookkeeping of the lifecycle
supervisor (`DockerLifecycleManager`, whose implementation file is not among
the repository sources) during `init` coalescing: the current state, how
many start commands were issued, the callers awaiting the in-flight start
attempt, and the outcome each caller has observed. -/
structure Supervisor where
  state : LifecycleState
  startCount : Nat
  waiters : List Nat
  observed : List (Nat × LifecycleState)
deriving Repr, DecidableEq

/-- A freshly constructed supervisor: uninitialized, no start issued. -/
def Supervisor.initial : Supervisor := ⟨.uninitialized, 0, [], []⟩

/-- Events of the supervisor model: an `init()` call by a caller, and the
health poll settling the in-flight start attempt one way or the other. -/
inductive SupEvent
  | initCall (caller : Nat)
  | healthOk
  | healthTimeout
deriving Repr, DecidableEq

/-- Modelled from the spec: one supervisor transition.  An `init()` call on
an uninitialized supervisor issues the single start command and begins the
in-flight attempt; an `init()` call while a start is in flight coalesces by
joining the waiters without issuing another start; an `init()` call on a
settled supervisor observes the current state.  The health poll settling the
attempt moves the state to `healthy` (or `failed` on timeout) and every
waiting caller observes that same outcome. -/
def supStep (s : Supervisor) (e : SupEvent) : Supervisor :=
  match e with
  | .initCall c =>
    match s.state with
    | .uninitialized =>
      { s with
          state := .starting
          startCount := s.startCount + 1
          waiters := s.waiters ++ [c] }
    | .starting => { s with waiters := s.waiters ++ [c] }
    | st => { s with observed := s.observed ++ [(c, st)] }
  | .healthOk =>
    match s.state with
    | .starting =>
      { s with
          state := .healthy
          waiters := []
          observed := s.observed ++ s.waiters.map (fun c => (c, LifecycleState.healthy)) }
    | _ => s
  | .healthTimeout =>
    match s.state with
    | .starting =>
      { s with
          state := .failed
          waiters := []
          observed := s.observed ++ s.waiters.map (fun c => (c, LifecycleState.failed)) }
    | _ => s

/-- Running the supervisor model over a sequence of events. -/
def supRun (s : Supervisor) (es : List SupEvent) : Supervisor :=
  es.foldl supStep s

/-- The engine of the spec's quota scenario: quota 10, cost 3 per search. -/
def scenarioEngine : EngineConfig := ⟨"engineA", 10, 3⟩

/-- A fixed current timestamp for the scenario. -/
def scenarioNow : String := "2026-10-11T00:00:00.000Z"

/-- The scenario ledger right after `initialize` from an empty store. -/
def scenarioM0 : CreditManager :=
  ((CreditManager.make [scenarioEngine]).initializeLedger [] scenarioNow).1

/-- The scenario ledger after three successful charges: `used = 9`. -/
def scenarioM3 : CreditManager :=
  { engines := [("engineA", scenarioEngine)],
    state := [("engineA", ⟨9, scenarioNow⟩)] }

/-- A ledger configured with the scenario engine and no loaded state. -/
def baseManager : CreditManager := CreditManager.make [scenarioEngine]

/-- The scenario ledger with a fresh zero-usage record. -/
def freshManager : CreditManager :=
  { engines := [("engineA", scenarioEngine)],
    state := [("engineA", ⟨0, scenarioNow⟩)] }

/-- A `lastReset` timestamp from the month before `scenarioNow`. -/
def staleReset : String := "2026-09-30T23:59:59.000Z"

theorem lookupState_append_some {st : CreditState} {engineId : String}
    {r : UsageRecord} (h : lookupState st engineId = some r) (l : CreditState) :
    lookupState (st ++ l) engineId = some r := by
  induction st with
  | nil => simp [lookupState] at h
  | cons p rest ih =>
    obtain ⟨k, v⟩ := p
    simp only [List.cons_append, lookupState] at h ⊢
    by_cases hk : k = engineId
    · simpa [hk] using h
    · rw [if_neg hk] at h ⊢
      exact ih h

theorem lookupState_append_none {st : CreditState} {engineId : String}
    (h : lookupState st engineId = none) (l : CreditState) :
    lookupState (st ++ l) engineId = lookupState l engineId := by
  induction st with
  | nil => simp
  | cons p rest ih =>
    obtain ⟨k, v⟩ := p
    simp only [lookupState] at h
    by_cases hk : k = engineId
    · simp [hk] at h
    · rw [if_neg hk] at h
      simpa only [List.cons_append, lookupState, if_neg hk] using ih h

theorem lookupState_update_ne {st : CreditState} {k engineId : String}
    {v : UsageRecord} (h : k ≠ engineId) :
    lookupState (updateState st k v) engineId = lookupState st engineId := by
  induction st with
  | nil => simp [updateState]
  | cons p rest ih =>
    obtain ⟨k', v'⟩ := p
    by_cases hk : k' = k
    · subst hk
      simp only [updateState, if_pos rfl, lookupState, if_neg h]
      exact ih
    · simp only [updateState, if_neg hk, lookupState]
      by_cases he : k' = engineId
      · simp [he]
      · simp only [if_neg he]
        exact ih

theorem lookupState_update_self {st : CreditState} {k : String}
    {v r : UsageRecord} (h : lookupState st k = some r) :
    lookupState (updateState st k v) k = some v := by
  induction st with
  | nil => simp [lookupState] at h
  | cons p rest ih =>
    obtain ⟨k', v'⟩ := p
    by_cases hk : k' = k
    · simp [updateState, if_pos hk, lookupState, hk]
    · simp only [lookupState, if_neg hk] at h
      simp only [updateState, if_neg hk, lookupState, if_neg hk]
      exact ih h

theorem monthOk_resetStep {now : String} {st : CreditState} {engineId : String}
    (h : monthOkAt (monthOf now) st engineId) (p : String × EngineConfig) :
    monthOkAt (monthOf now) (resetStep now st p) engineId := by
  obtain ⟨r, hl, hm⟩ := h
  unfold resetStep
  split
  · exact ⟨r, lookupState_append_some hl _, hm⟩
  · rename_i record hsome
    split
    · rename_i hmon
      by_cases hpe : p.1 = engineId
      · rw [hpe, hl] at hsome
        cases hsome
        exact absurd hm hmon
      · exact ⟨r, by rw [lookupState_update_ne hpe]; exact hl, hm⟩
    · exact ⟨r, hl, hm⟩

theorem monthOk_resetFold {now : String} {engineId : String} :
    ∀ (l : List (String × EngineConfig)) (st : CreditState),
      monthOkAt (monthOf now) st engineId →
      monthOkAt (monthOf now) (l.foldl (resetStep now) st) engineId
  | [], _, h => h
  | p :: rest, _st, h => monthOk_resetFold rest _ (monthOk_resetStep h p)

theorem monthOk_resetStep_self {now : String} {st : CreditState}
    (p : String × EngineConfig) :
    monthOkAt (monthOf now) (resetStep now st p) p.1 := by
  unfold resetStep
  split
  · rename_i hnone
    refine ⟨⟨0, now⟩, ?_, rfl⟩
    rw [lookupState_append_none hnone]
    simp [lookupState]
  · rename_i record hsome
    split
    · exact ⟨⟨0, now⟩, lookupState_update_self hsome, rfl⟩
    · rename_i hmon
      exact ⟨record, hsome, not_not.mp hmon⟩

theorem monthOk_after_reset {now : String} {engineId : String} :
    ∀ (l : List (String × EngineConfig)) (st : CreditState),
      engineId ∈ l.map Prod.fst →
      monthOkAt (monthOf now) (l.foldl (resetStep now) st) engineId
  | [], _, h => by simp at h
  | p :: rest, st, h => by
    by_cases hp : p.1 = engineId
    · exact monthOk_resetFold rest _ (hp ▸ monthOk_resetStep_self p)
    · have hmem : engineId ∈ rest.map Prod.fst := by
        simp only [List.map_cons, List.mem_cons] at h
        exact h.resolve_left (fun he => hp he.symm)
      exact monthOk_after_reset rest _ hmem

theorem resetFold_eq_of_monthOk {now : String} :
    ∀ (l : List (String × EngineConfig)) (st : CreditState),
      (∀ p ∈ l, monthOkAt (monthOf now) st p.1) →
      l.foldl (resetStep now) st = st
  | [], _, _ => rfl
  | p :: rest, st, h => by
    have hstep : resetStep now st p = st := by
      obtain ⟨r, hl, hm⟩ := h p (List.mem_cons_self p rest)
      unfold resetStep
      rw [hl]
      simp [hm]
    rw [List.foldl_cons, hstep]
    exact resetFold_eq_of_monthOk rest st (fun q hq => h q (List.mem_cons_of_mem p hq))

theorem resetStep_lookup_ne {now : String} {st : CreditState} {engineId : String}
    {r : UsageRecord} (p : String × EngineConfig) (hne : p.1 ≠ engineId)
    (hl : lookupState st engineId = some r) :
    lookupState (resetStep now st p) engineId = some r := by
  unfold resetStep
  split
  · exact lookupState_append_some hl _
  · split
    · rw [lookupState_update_ne hne]
      exact hl
    · exact hl

theorem resetFold_lookup_current {now : String} {engineId : String} {r : UsageRecord}
    (hm : monthOf r.lastReset = monthOf now) :
    ∀ (l : List (String × EngineConfig)) (st : CreditState),
      lookupState st engineId = some r →
      lookupState (l.foldl (resetStep now) st) engineId = some r
  | [], _, hl => hl
  | p :: rest, st, hl => by
    have hstep : lookupState (resetStep now st p) engineId = some r := by
      by_cases hpe : p.1 = engineId
      · unfold resetStep
        rw [hpe, hl]
        simp [hm]
        exact hl
      · exact resetStep_lookup_ne p hpe hl
    exact resetFold_lookup_current hm rest _ hstep

theorem resetFold_lookup_stale {now : String} {engineId : String} {r : UsageRecord}
    (hm : monthOf r.lastReset ≠ monthOf now) :
    ∀ (l : List (String × EngineConfig)) (st : CreditState),
      engineId ∈ l.map Prod.fst →
      lookupState st engineId = some r →
      lookupState (l.foldl (resetStep now) st) engineId = some ⟨0, now⟩
  | [], _, hmem, _ => by simp at hmem
  | p :: rest, st, hmem, hl => by
    by_cases hpe : p.1 = engineId
    · have hstep : lookupState (resetStep now st p) engineId = some ⟨0, now⟩ := by
        unfold resetStep
        rw [hpe, hl]
        simp [hm]
        exact lookupState_update_self hl
      exact resetFold_lookup_current rfl rest _ hstep
    · have hmem2 : engineId ∈ rest.map Prod.fst := by
        simp only [List.map_cons, List.mem_cons] at hmem
        exact hmem.resolve_left (fun he => hpe he.symm)
      exact resetFold_lookup_stale hm rest _ hmem2 (resetStep_lookup_ne p hpe hl)

theorem charge_ok_cases {m : CreditManager} {engineId : String} {b : Bool}
    {m2 : CreditManager} (h : m.charge engineId = .ok (b, m2)) :
    (b = false ∧ m2 = m) ∨
    (b = true ∧ ∃ config record,
      m.getEngine engineId = some config ∧
      lookupState m.state engineId = some record ∧
      m2 = { m with
              state := updateState m.state engineId
                ⟨record.used + config.creditCostPerSearch, record.lastReset⟩ }) := by
  unfold CreditManager.charge at h
  split at h
  · simp at h
  · rename_i config hcfg
    split at h
    · simp at h
    · rename_i record hrec
      split at h
      · simp only [Except.ok.injEq, Prod.mk.injEq] at h
        exact Or.inl ⟨h.1.symm, h.2.symm⟩
      · simp only [Except.ok.injEq, Prod.mk.injEq] at h
        exact Or.inr ⟨h.1.symm, config, record, hcfg, hrec, h.2.symm⟩

theorem charge_ok_engines {m : CreditManager} {engineId : String} {b : Bool}
    {m2 : CreditManager} (h : m.charge engineId = .ok (b, m2)) :
    m2.engines = m.engines := by
  rcases charge_ok_cases h with ⟨_, rfl⟩ | ⟨_, config, record, _, _, rfl⟩ <;> rfl

theorem charge_ok_lookup_ne {m : CreditManager} {engineId j : String} {b : Bool}
    {m2 : CreditManager} (h : m.charge engineId = .ok (b, m2))
    (hne : engineId ≠ j) :
    lookupState m2.state j = lookupState m.state j := by
  rcases charge_ok_cases h with ⟨_, rfl⟩ | ⟨_, config, record, _, _, rfl⟩
  · rfl
  · exact lookupState_update_ne hne

theorem chargeAndSave_ok_charge {m : CreditManager} {store : CreditState}
    {engineId : String} {b : Bool} {m2 : CreditManager} {store2 : CreditState}
    (h : m.chargeAndSave store engineId = .ok (b, m2, store2)) :
    m.charge engineId = .ok (b, m2) := by
  unfold CreditManager.chargeAndSave at h
  split at h
  · simp at h
  · rename_i result m1 heq
    split at h <;> simp_all

theorem hasSufficientCredits_congr {m m2 : CreditManager} {engineId : String}
    (he : m2.engines = m.engines)
    (hl : lookupState m2.state engineId = lookupState m.state engineId) :
    m2.hasSufficientCredits engineId = m.hasSufficientCredits engineId := by
  unfold CreditManager.hasSufficientCredits CreditManager.getEngine
  rw [he, hl]

/-- C1: for a configured back-end with a usage record, if
`used + costPerSearch <= monthlyQuota` then `charge` returns `true` and
increments `used` by exactly `costPerSearch`; if `used + costPerSearch >
monthlyQuota` then `charge` returns `false` and leaves the ledger, hence
`used`, unchanged (no partial charge). -/
theorem charge_increments_or_rejects (m : CreditManager) (engineId : String)
    (cfg : EngineConfig) (r : UsageRecord)
    (hcfg : m.getEngine engineId = some cfg)
    (hrec : lookupState m.state engineId = some r) :
    (r.used + cfg.creditCostPerSearch ≤ cfg.monthlyQuota →
      m.charge engineId = .ok (true, { m with
        state := updateState m.state engineId
          ⟨r.used + cfg.creditCostPerSearch, r.lastReset⟩ }) ∧
      lookupState (updateState m.state engineId
          ⟨r.used + cfg.creditCostPerSearch, r.lastReset⟩) engineId =
        some ⟨r.used + cfg.creditCostPerSearch, r.lastReset⟩) ∧
    (cfg.monthlyQuota < r.used + cfg.creditCostPerSearch →
      m.charge engineId = .ok (false, m)) := by
  constructor
  · intro hle
    refine ⟨?_, lookupState_update_self hrec⟩
    unfold CreditManager.charge
    rw [hcfg, hrec]
    simp [not_lt.mpr hle]
  · intro hgt
    unfold CreditManager.charge
    rw [hcfg, hrec]
    simp [hgt]

/-- Witness for C1: on a fresh record with quota 10 and cost 3 the charge
succeeds and the stored record becomes `used = 3`. -/
theorem charge_increments_or_rejects_witness :
    freshManager.charge "engineA" = .ok (true, { freshManager with
      state := updateState freshManager.state "engineA" ⟨0 + 3, scenarioNow⟩ }) :=
  ((charge_increments_or_rejects freshManager "engineA" scenarioEngine
    ⟨0, scenarioNow⟩ rfl rfl).1 (by decide)).1

/-- C2 counterexample: for an id absent from the configured engine set the
source `hasSufficientCredits` returns the boolean `false`, while the claim
(following the spec wording, `hasSufficientCreditsSpec`) demands an
`UnknownBackend` failure. -/
theorem hasSufficientCredits_unknown_counterexample :
    baseManager.hasSufficientCredits "missing" = false ∧
    hasSufficientCreditsSpec baseManager "missing" = .error "UnknownBackend" :=
  ⟨rfl, rfl⟩

/-- C2 (amended): `hasSufficientCredits` returns `true` if no usage record
exists for a configured back-end, returns `used + costPerSearch <= quota`
when a record exists, and returns `false` (without failing) whenever the id
is not in the configured back-end set. -/
theorem hasSufficientCredits_cases (m : CreditManager) (engineId : String) :
    (m.getEngine engineId = none → m.hasSufficientCredits engineId = false) ∧
    (∀ cfg, m.getEngine engineId = some cfg →
      lookupState m.state engineId = none →
      m.hasSufficientCredits engineId = true) ∧
    (∀ cfg r, m.getEngine engineId = some cfg →
      lookupState m.state engineId = some r →
      (m.hasSufficientCredits engineId = true ↔
        r.used + cfg.creditCostPerSearch ≤ cfg.monthlyQuota)) := by
  refine ⟨fun h => ?_, fun cfg hcfg hrec => ?_, fun cfg r hcfg hrec => ?_⟩ <;>
    · unfold CreditManager.hasSufficientCredits
      simp [*]

/-- Witness for C2: the unused configured engine has sufficient credits. -/
theorem hasSufficientCredits_cases_witness :
    baseManager.hasSufficientCredits "engineA" = true :=
  (hasSufficientCredits_cases baseManager "engineA").2.1 scenarioEngine rfl rfl

/-- C5: for a configured back-end the snapshot has
`remaining = max(0, quota - used)` and `isExhausted = remaining < costPerSearch`;
and in the quota=10, cost=3 scenario three successful charges leave `used = 9`,
`remaining = 1`, `isExhausted = true`, and a fourth charge returns `false`. -/
theorem getSnapshot_formula_and_scenario :
    (∀ (m : CreditManager) (engineId now : String) (cfg : EngineConfig)
      (r : UsageRecord),
      m.getEngine engineId = some cfg →
      lookupState m.state engineId = some r →
      m.getSnapshot engineId now = .ok ⟨engineId, cfg.monthlyQuota, r.used,
        max 0 (cfg.monthlyQuota - r.used),
        decide (max 0 (cfg.monthlyQuota - r.used) < cfg.creditCostPerSearch)⟩) ∧
    (chargeSeq scenarioM0 "engineA" 3 = .ok ([true, true, true], scenarioM3) ∧
     lookupState scenarioM3.state "engineA" = some ⟨9, scenarioNow⟩ ∧
     scenarioM3.getSnapshot "engineA" scenarioNow = .ok ⟨"engineA", 10, 9, 1, true⟩ ∧
     scenarioM3.charge "engineA" = .ok (false, scenarioM3)) := by
  constructor
  · intro m engineId now cfg r hcfg hrec
    unfold CreditManager.getSnapshot
    rw [hcfg, hrec]
    rfl
  · exact ⟨rfl, rfl, rfl, rfl⟩

/-- Witness for C5: the snapshot formula evaluated on the scenario ledger
after three charges. -/
theorem getSnapshot_formula_witness :
    scenarioM3.getSnapshot "engineA" scenarioNow = .ok ⟨"engineA", 10, 9, 1, true⟩ :=
  getSnapshot_formula_and_scenario.1 scenarioM3 "engineA" scenarioNow
    scenarioEngine ⟨9, scenarioNow⟩ rfl rfl

/-- C6: `chargeAndSave` writes the state snapshot through the persistence
collaborator if and only if the charge succeeded: on a failed charge it
returns `false` and the store is untouched; on a successful charge the new
in-memory state is written and `true` is returned. -/
theorem chargeAndSave_persists_iff_success (m : CreditManager)
    (store : CreditState) (engineId : String) :
    (∀ m1, m.charge engineId = .ok (false, m1) →
      m.chargeAndSave store engineId = .ok (false, m1, store)) ∧
    (∀ m1, m.charge engineId = .ok (true, m1) →
      m.chargeAndSave store engineId = .ok (true, m1, m1.state)) := by
  constructor <;> intro m1 h <;> simp [CreditManager.chargeAndSave, h]

/-- Witness for C6: the exhausted scenario ledger's failed charge leaves the
store exactly as given. -/
theorem chargeAndSave_persists_iff_success_witness :
    scenarioM3.chargeAndSave [] "engineA" = .ok (false, scenarioM3, []) :=
  (chargeAndSave_persists_iff_success scenarioM3 [] "engineA").1 scenarioM3 rfl

/-- C10: for an engine id not in the configured set, `getSnapshot` fails with
an `Unknown engine` error while `hasSufficientCredits` on the same id returns
a boolean (`false`) without failing. -/
theorem getSnapshot_unknown_engine_throws (m : CreditManager)
    (engineId now : String) (h : m.getEngine engineId = none) :
    m.getSnapshot engineId now = .error ("Unknown engine: " ++ engineId) ∧
    m.hasSufficientCredits engineId = false := by
  constructor
  · unfold CreditManager.getSnapshot
    rw [h]
  · unfold CreditManager.hasSufficientCredits
    rw [h]

/-- Witness for C10: an unconfigured id against the scenario ledger. -/
theorem getSnapshot_unknown_engine_throws_witness :
    baseManager.getSnapshot "missing" scenarioNow =
      .error ("Unknown engine: " ++ "missing") ∧
    baseManager.hasSufficientCredits "missing" = false :=
  getSnapshot_unknown_engine_throws baseManager "missing" scenarioNow rfl

theorem getEngine_mem_keys {m : CreditManager} {engineId : String}
    {cfg : EngineConfig} (h : m.getEngine engineId = some cfg) :
    engineId ∈ m.engines.map Prod.fst := by
  unfold CreditManager.getEngine at h
  cases hfind : m.engines.find? (fun p => p.1 = engineId) with
  | none => rw [hfind] at h; simp at h
  | some p =>
    have hp : p.1 = engineId := by simpa using List.find?_some hfind
    exact hp ▸ List.mem_map_of_mem Prod.fst (List.mem_of_find?_eq_some hfind)

/-- C3: on `initialize()`, a configured back-end whose persisted record has a
`lastReset` in a different calendar month (`YYYY-MM` prefix) than the current
time is reset to `used = 0` with `lastReset` set to the current time, while a
record whose `lastReset` is in the current month is kept unchanged. -/
theorem initialize_month_rollover (m : CreditManager) (persisted : CreditState)
    (now engineId : String) (cfg : EngineConfig) (r : UsageRecord)
    (hcfg : m.getEngine engineId = some cfg)
    (hrec : lookupState persisted engineId = some r) :
    (monthOf r.lastReset ≠ monthOf now →
      lookupState (m.initializeLedger persisted now).1.state engineId = some ⟨0, now⟩) ∧
    (monthOf r.lastReset = monthOf now →
      lookupState (m.initializeLedger persisted now).1.state engineId = some r) := by
  constructor
  · intro hstale
    exact resetFold_lookup_stale hstale m.engines persisted
      (getEngine_mem_keys hcfg) hrec
  · intro hcur
    exact resetFold_lookup_current hcur m.engines persisted hrec

/-- Witness for C3: a record last reset in 2026-09 is zeroed by an
`initialize` in 2026-10. -/
theorem initialize_month_rollover_witness :
    lookupState (baseManager.initializeLedger [("engineA", ⟨7, staleReset⟩)]
      scenarioNow).1.state "engineA" = some ⟨0, scenarioNow⟩ :=
  (initialize_month_rollover baseManager [("engineA", ⟨7, staleReset⟩)]
    scenarioNow "engineA" scenarioEngine ⟨7, staleReset⟩ rfl rfl).1 (by decide)

/-- C4: `initialize()` is idempotent within one calendar month: re-running it
on the snapshot it persisted, at any time in the same month, reproduces the
same in-memory ledger and the same persisted snapshot. -/
theorem initialize_idempotent_same_month (m : CreditManager)
    (persisted : CreditState) (t1 t2 : String) (h : monthOf t1 = monthOf t2) :
    m.initializeLedger (m.initializeLedger persisted t1).2 t2 =
      m.initializeLedger persisted t1 := by
  unfold CreditManager.initializeLedger
  have hR : resetIfNeeded m.engines (resetIfNeeded m.engines persisted t1) t2
      = resetIfNeeded m.engines persisted t1 := by
    apply resetFold_eq_of_monthOk
    intro p hp
    have h1 : monthOkAt (monthOf t1) (resetIfNeeded m.engines persisted t1) p.1 :=
      monthOk_after_reset m.engines persisted (List.mem_map_of_mem Prod.fst hp)
    rw [h] at h1
    exact h1
  simp only [hR]

/-- Witness for C4: two `initialize` runs at the scenario timestamp coincide
with one. -/
theorem initialize_idempotent_same_month_witness :
    baseManager.initializeLedger (baseManager.initializeLedger [] scenarioNow).2 scenarioNow =
      baseManager.initializeLedger [] scenarioNow :=
  initialize_idempotent_same_month baseManager [] scenarioNow scenarioNow rfl

theorem supRun_initCalls_starting :
    ∀ (cs : List Nat) (s : Supervisor), s.state = .starting →
      supRun s (cs.map SupEvent.initCall) = { s with waiters := s.waiters ++ cs }
  | [], s, h => by simp [supRun]
  | c :: cs, s, h => by
    have hstep : supStep s (SupEvent.initCall c) =
        { s with waiters := s.waiters ++ [c] } := by
      unfold supStep
      rw [h]
    have hrec := supRun_initCalls_starting cs { s with waiters := s.waiters ++ [c] }
      (by simpa using h)
    simp only [List.map_cons, supRun, List.foldl_cons] at hrec ⊢
    rw [hstep, hrec]
    simp

/-- C9: concurrent `init()` callers arriving while a start is in flight are
coalesced: for any nonempty group of callers whose `init()` calls all happen
before the health poll settles, exactly one start command is issued and every
caller observes the same `Healthy` outcome of that single attempt. -/
theorem init_coalesces_single_start (c : Nat) (cs : List Nat) :
    (supRun Supervisor.initial
      ((c :: cs).map SupEvent.initCall ++ [SupEvent.healthOk])).startCount = 1 ∧
    (supRun Supervisor.initial
      ((c :: cs).map SupEvent.initCall ++ [SupEvent.healthOk])).state = .healthy ∧
    ∀ x ∈ c :: cs, (x, LifecycleState.healthy) ∈
      (supRun Supervisor.initial
        ((c :: cs).map SupEvent.initCall ++ [SupEvent.healthOk])).observed := by
  have h1 : supRun Supervisor.initial ((c :: cs).map SupEvent.initCall) =
      ⟨.starting, 1, c :: cs, []⟩ := by
    simp only [List.map_cons, supRun, List.foldl_cons]
    have hstep : supStep Supervisor.initial (SupEvent.initCall c) =
        (⟨.starting, 1, [c], []⟩ : Supervisor) := rfl
    have hrec := supRun_initCalls_starting cs (⟨.starting, 1, [c], []⟩ : Supervisor) rfl
    simp only [supRun] at hrec
    rw [hstep, hrec]
    simp
  have h2 : supRun Supervisor.initial
      ((c :: cs).map SupEvent.initCall ++ [SupEvent.healthOk]) =
      ⟨.healthy, 1, [], (c :: cs).map (fun x => (x, LifecycleState.healthy))⟩ := by
    unfold supRun
    rw [List.foldl_append]
    have h1' := h1
    simp only [supRun] at h1'
    rw [h1']
    rfl
  rw [h2]
  exact ⟨rfl, rfl, fun x hx => List.mem_map_of_mem _ hx⟩

/-- Witness for C9: two concurrent callers, one start command, both observe
`Healthy`. -/
theorem init_coalesces_single_start_witness :
    (supRun Supervisor.initial
      ([1, 2].map SupEvent.initCall ++ [SupEvent.healthOk])).startCount = 1 ∧
    (1, LifecycleState.healthy) ∈
      (supRun Supervisor.initial
        ([1, 2].map SupEvent.initCall ++ [SupEvent.healthOk])).observed ∧
    (2, LifecycleState.healthy) ∈
      (supRun Supervisor.initial
        ([1, 2].map SupEvent.initCall ++ [SupEvent.healthOk])).observed :=
  ⟨(init_coalesces_single_start 1 [2]).1,
   (init_coalesces_single_start 1 [2]).2.2 1 (by simp),
   (init_coalesces_single_start 1 [2]).2.2 2 (by simp)⟩

theorem runAll_frame {α : Type} (search : String → Except String (List α))
    (l : List String) :
    ∀ (m : CreditManager) (store : CreditState)
      (atts : List EngineAttempt) (res : List α) (calls : List String)
      (m' : CreditManager) (store' : CreditState),
      runAll search m store l = .ok (atts, res, calls, m', store') →
      calls ⊆ l ∧ m'.engines = m.engines ∧
        ∀ j, j ∉ l → lookupState m'.state j = lookupState m.state j := by
  induction l with
  | nil =>
    intro m store atts res calls m' store' h
    simp only [runAll, Except.ok.injEq, Prod.mk.injEq] at h
    obtain ⟨rfl, rfl, rfl, rfl, rfl⟩ := h
    exact ⟨List.nil_subset _, rfl, fun j _ => rfl⟩
  | cons hd rest ih =>
    intro m store atts res calls m' store' h
    have hnotmem : ∀ j, j ∉ hd :: rest → j ≠ hd ∧ j ∉ rest := by
      intro j hj
      simp only [List.mem_cons, not_or] at hj
      exact hj
    simp only [runAll] at h
    split at h
    · split at h
      · -- search hd failed
        split at h
        · exact absurd h (by simp)
        · rename_i atts1 res1 calls1 m1 store1 heq
          simp only [Except.ok.injEq, Prod.mk.injEq] at h
          obtain ⟨rfl, rfl, rfl, rfl, rfl⟩ := h
          obtain ⟨hsub, heng, hlook⟩ := ih m store _ _ _ _ _ heq
          refine ⟨List.cons_subset_cons hd hsub, heng, fun j hj => ?_⟩
          exact hlook j (hnotmem j hj).2
      · -- search hd returned items
        split at h
        · -- empty items count as failure
          split at h
          · exact absurd h (by simp)
          · rename_i atts1 res1 calls1 m1 store1 heq
            simp only [Except.ok.injEq, Prod.mk.injEq] at h
            obtain ⟨rfl, rfl, rfl, rfl, rfl⟩ := h
            obtain ⟨hsub, heng, hlook⟩ := ih m store _ _ _ _ _ heq
            refine ⟨List.cons_subset_cons hd hsub, heng, fun j hj => ?_⟩
            exact hlook j (hnotmem j hj).2
        · -- non-empty: charge then recurse
          split at h
          · exact absurd h (by simp)
          · rename_i b m1 store1 heqc
            split at h
            · exact absurd h (by simp)
            · rename_i atts1 res1 calls1 m2 store2 heq
              simp only [Except.ok.injEq, Prod.mk.injEq] at h
              obtain ⟨rfl, rfl, rfl, rfl, rfl⟩ := h
              obtain ⟨hsub, heng, hlook⟩ := ih m1 store1 _ _ _ _ _ heq
              have hcg := chargeAndSave_ok_charge heqc
              refine ⟨List.cons_subset_cons hd hsub,
                heng.trans (charge_ok_engines hcg), fun j hj => ?_⟩
              obtain ⟨hne, hnr⟩ := hnotmem j hj
              exact (hlook j hnr).trans (charge_ok_lookup_ne hcg (fun he => hne he.symm))
    · -- insufficient credits: skipped
      split at h
      · exact absurd h (by simp)
      · rename_i atts1 res1 calls1 m1 store1 heq
        simp only [Except.ok.injEq, Prod.mk.injEq] at h
        obtain ⟨rfl, rfl, rfl, rfl, rfl⟩ := h
        obtain ⟨hsub, heng, hlook⟩ := ih m store _ _ _ _ _ heq
        refine ⟨hsub.trans (List.subset_cons_self hd rest), heng, fun j hj => ?_⟩
        exact hlook j (hnotmem j hj).2

/-- C7: during strategy execution, a back-end in the input order for which
`hasSufficientCredits` is false is recorded as an
`EngineAttempt{success:false, reason:"low_credit"}` and skipped entirely: it
is never called and never charged (its usage record in the final ledger is
the one it started with). -/
theorem strategy_skips_low_credit {α : Type} (search : String → Except String (List α))
    (l : List String) :
    ∀ (m : CreditManager) (store : CreditState)
      (atts : List EngineAttempt) (res : List α) (calls : List String)
      (m' : CreditManager) (store' : CreditState) (engineId : String),
      runAll search m store l = .ok (atts, res, calls, m', store') →
      engineId ∈ l → m.hasSufficientCredits engineId = false →
      EngineAttempt.mk engineId false (some "low_credit") ∈ atts ∧
      engineId ∉ calls ∧
      lookupState m'.state engineId = lookupState m.state engineId := by
  induction l with
  | nil => intro _ _ _ _ _ _ _ _ _ hmem _; simp at hmem
  | cons hd rest ih =>
    intro m store atts res calls m' store' engineId h hmem hlow
    simp only [runAll] at h
    by_cases hhd : hd = engineId
    · subst hhd
      rw [hlow] at h
      simp only [Bool.false_eq_true, if_false] at h
      split at h
      · exact absurd h (by simp)
      · rename_i atts1 res1 calls1 m1 store1 heq
        simp only [Except.ok.injEq, Prod.mk.injEq] at h
        obtain ⟨rfl, rfl, rfl, rfl, rfl⟩ := h
        by_cases hmem2 : hd ∈ rest
        · obtain ⟨_, hc, hl⟩ := ih m store _ _ _ _ _ hd heq hmem2 hlow
          exact ⟨List.mem_cons_self _ _, hc, hl⟩
        · obtain ⟨hsub, _, hlook⟩ := runAll_frame search rest m store _ _ _ _ _ heq
          exact ⟨List.mem_cons_self _ _, fun hin => hmem2 (hsub hin),
            hlook hd hmem2⟩
    · have hmem2 : engineId ∈ rest := by
        rcases List.mem_cons.mp hmem with he | he
        · exact absurd he.symm hhd
        · exact he
      split at h
      · split at h
        · -- search hd failed
          split at h
          · exact absurd h (by simp)
          · rename_i atts1 res1 calls1 m1 store1 heq
            simp only [Except.ok.injEq, Prod.mk.injEq] at h
            obtain ⟨rfl, rfl, rfl, rfl, rfl⟩ := h
            obtain ⟨ha, hc, hl⟩ := ih m store _ _ _ _ _ engineId heq hmem2 hlow
            refine ⟨List.mem_cons_of_mem _ ha, ?_, hl⟩
            simp only [List.mem_cons, not_or]
            exact ⟨fun he => hhd he.symm, hc⟩
        · split at h
          · -- empty result
            split at h
            · exact absurd h (by simp)
            · rename_i atts1 res1 calls1 m1 store1 heq
              simp only [Except.ok.injEq, Prod.mk.injEq] at h
              obtain ⟨rfl, rfl, rfl, rfl, rfl⟩ := h
              obtain ⟨ha, hc, hl⟩ := ih m store _ _ _ _ _ engineId heq hmem2 hlow
              refine ⟨List.mem_cons_of_mem _ ha, ?_, hl⟩
              simp only [List.mem_cons, not_or]
              exact ⟨fun he => hhd he.symm, hc⟩
          · -- success: hd is charged, engineId is not
            split at h
            · exact absurd h (by simp)
            · rename_i b m1 store1 heqc
              split at h
              · exact absurd h (by simp)
              · rename_i atts1 res1 calls1 m2 store2 heq
                simp only [Except.ok.injEq, Prod.mk.injEq] at h
                obtain ⟨rfl, rfl, rfl, rfl, rfl⟩ := h
                have hcg := chargeAndSave_ok_charge heqc
                have hlk : lookupState m1.state engineId = lookupState m.state engineId :=
                  charge_ok_lookup_ne hcg hhd
                have hlow1 : m1.hasSufficientCredits engineId = false :=
                  (hasSufficientCredits_congr (charge_ok_engines hcg) hlk).trans hlow
                obtain ⟨ha, hc, hl⟩ := ih m1 store1 _ _ _ _ _ engineId heq hmem2 hlow1
                refine ⟨List.mem_cons_of_mem _ ha, ?_, hl.trans hlk⟩
                simp only [List.mem_cons, not_or]
                exact ⟨fun he => hhd he.symm, hc⟩
      · -- hd itself was skipped for low credit
        split at h
        · exact absurd h (by simp)
        · rename_i atts1 res1 calls1 m1 store1 heq
          simp only [Except.ok.injEq, Prod.mk.injEq] at h
          obtain ⟨rfl, rfl, rfl, rfl, rfl⟩ := h
          obtain ⟨ha, hc, hl⟩ := ih m store _ _ _ _ _ engineId heq hmem2 hlow
          exact ⟨List.mem_cons_of_mem _ ha, hc, hl⟩

/-- Witness for C7: the exhausted scenario ledger over the single input
back-end yields one `low_credit` attempt, no call and an unchanged record. -/
theorem strategy_skips_low_credit_witness :
    EngineAttempt.mk "engineA" false (some "low_credit") ∈
      [EngineAttempt.mk "engineA" false (some "low_credit")] ∧
    "engineA" ∉ ([] : List String) ∧
    lookupState scenarioM3.state "engineA" = lookupState scenarioM3.state "engineA" :=
  strategy_skips_low_credit (fun _ => .ok ([] : List Unit)) ["engineA"]
    scenarioM3 [] [EngineAttempt.mk "engineA" false (some "low_credit")] [] []
    scenarioM3 [] "engineA" rfl (by simp) rfl

/-- C8: a `FirstSuccessStrategy` execution in which every attempted back-end
fails (insufficient credits, a failed call, or an empty result) returns
normally — no error — with zero result items and an attempts log holding one
failure entry, with a reason, per attempted back-end in input order.  The
ledger and the persisted store are left untouched. -/
theorem firstSuccess_all_fail {α : Type} (search : String → Except String (List α))
    (l : List String) :
    ∀ (m : CreditManager) (store : CreditState),
      (∀ engineId ∈ l, m.hasSufficientCredits engineId = false ∨
        (∃ e, search engineId = .error e) ∨ search engineId = .ok []) →
      ∃ atts, runFirstSuccess search m store l = .ok (⟨[], atts⟩, m, store) ∧
        atts.map (fun a => a.engineId) = l ∧
        ∀ a ∈ atts, a.success = false ∧ a.reason ≠ none := by
  induction l with
  | nil => exact fun m store _ => ⟨[], rfl, rfl, by simp⟩
  | cons hd rest ih =>
    intro m store hfail
    obtain ⟨atts1, hrun, hmap, hprop⟩ :=
      ih m store (fun e he => hfail e (List.mem_cons_of_mem hd he))
    have hcons : ∀ r : Option String,
        ∀ a ∈ EngineAttempt.mk hd false (some (r.getD "x")) :: atts1,
          a.success = false ∧ a.reason ≠ none := by
      intro r a ha
      rcases List.mem_cons.mp ha with rfl | ha
      · exact ⟨rfl, by simp⟩
      · exact hprop a ha
    by_cases hsuff : m.hasSufficientCredits hd
    · rcases hfail hd (List.mem_cons_self hd rest) with hlow | ⟨e, herr⟩ | hempty
      · rw [hsuff] at hlow
        exact absurd hlow (by simp)
      · refine ⟨⟨hd, false, some e⟩ :: atts1, ?_, by simp [hmap], ?_⟩
        · simp only [runFirstSuccess, hsuff, if_true, herr, hrun]
        · simpa using hcons (some e)
      · refine ⟨⟨hd, false, some "no_results"⟩ :: atts1, ?_, by simp [hmap], ?_⟩
        · simp only [runFirstSuccess, hsuff, if_true, hempty, List.isEmpty_nil,
            if_true, hrun]
        · simpa using hcons (some "no_results")
    · rw [Bool.not_eq_true] at hsuff
      refine ⟨⟨hd, false, some "low_credit"⟩ :: atts1, ?_, by simp [hmap], ?_⟩
      · simp only [runFirstSuccess, hsuff, Bool.false_eq_true, if_false, hrun]
      · simpa using hcons (some "low_credit")

/-- Witness for C8: one exhausted back-end yields an empty result with a
single explained failure attempt. -/
theorem firstSuccess_all_fail_witness :
    ∃ atts, runFirstSuccess (fun _ => .ok ([] : List Unit)) scenarioM3 [] ["engineA"] =
        .ok (⟨[], atts⟩, scenarioM3, []) ∧
      atts.map (fun a => a.engineId) = ["engineA"] ∧
      ∀ a ∈ atts, a.success = false ∧ a.reason ≠ none :=
  firstSuccess_all_fail (fun _ => .ok ([] : List Unit)) ["engineA"] scenarioM3 []
    (fun e he => by simp at he; subst he; exact Or.inl rfl)

end MultiSearch
